import Mathlib

/-!
Verification development for the MFF-Net repository (files
`MFF-Net/DecoderC.py` and `MFF-Net/dataset.py`).

The decoder is a staged tensor pipeline.  We embed it at two levels:

* a *shape semantics*: tensor shapes are modelled by the inductive `MFF.Shp`
  (rank-3 token tensors `(B, N, C)` and rank-4 spatial tensors
  `(B, C, H, W)`); every tensor operation used by `DecoderC.py` becomes a
  total function on `Option Shp` where `none` means "the corresponding
  PyTorch operation raises" and errors propagate (reshape requires equal
  element counts, `-1` inference requires a non-zero divisible known
  product, `torch.cat` requires equal non-concatenated dims, linear layers
  require a matching trailing width, `nn.Fold` requires a divisible channel
  count and the exact block count, convolution requires matching channels
  and a non-negative output size, the learned relative-position bias is
  added with PyTorch broadcasting rules);

* a *value semantics* over `ℝ` (tensors as index functions) for the parts of
  the code whose claims are about values rather than shapes:
  `PatchEmbed.forward` (skip-feature invariance when `fuse` is disabled) and
  the sigmoid stage of `DecoderC.forward`.

`dataset.py`'s `load_list` is embedded at the string level, with the results
of the `os.listdir` calls passed in as arguments.
-/

namespace MFF

/-- Tensor shapes used by `DecoderC.py`: rank-3 `(d0, d1, d2)` token tensors
and rank-4 `(d0, d1, d2, d3)` spatial tensors.  Fields are positional dims. -/
inductive Shp where
  | r3 (d0 d1 d2 : Nat)
  | r4 (d0 d1 d2 d3 : Nat)
deriving DecidableEq

/-- Number of elements of a tensor of this shape. -/
def Shp.numel : Shp → Nat
  | .r3 d0 d1 d2 => d0 * d1 * d2
  | .r4 d0 d1 d2 d3 => d0 * d1 * d2 * d3

/-- `nn.Linear(inF, outF)` applied to a rank-3 tensor: the trailing dim must
equal `inF` and becomes `outF`. -/
def linearS (inF outF : Nat) : Option Shp → Option Shp
  | some (.r3 b n c) => if c = inF then some (.r3 b n outF) else none
  | _ => none

/-- `nn.GELU` (and dropout, scalar scaling): shape preserving. -/
def geluS (s : Option Shp) : Option Shp := s

/-- `softmax` along a dim: shape preserving. -/
def softmaxS (s : Option Shp) : Option Shp := s

/-- `nn.Sigmoid`: shape preserving. -/
def sigmoidS (s : Option Shp) : Option Shp := s

/-- `x.flatten(2)` on a rank-4 tensor. -/
def flatten2S : Option Shp → Option Shp
  | some (.r4 b c h w) => some (.r3 b c (h * w))
  | _ => none

/-- `x.transpose(1, 2)` (also `permute(0, 2, 1)` on rank 3). -/
def transpose12S : Option Shp → Option Shp
  | some (.r3 b n c) => some (.r3 b c n)
  | some (.r4 b c h w) => some (.r4 b h c w)
  | none => none

/-- `x.transpose(-2, -1)` on a rank-4 tensor. -/
def transposeLast2S : Option Shp → Option Shp
  | some (.r4 b h n e) => some (.r4 b h e n)
  | _ => none

/-- `x.permute(0, 2, 1, 3)`. -/
def permute0213S : Option Shp → Option Shp
  | some (.r4 b n h e) => some (.r4 b h n e)
  | _ => none

/-- `x.permute(0, 3, 1, 2)`. -/
def permute0312S : Option Shp → Option Shp
  | some (.r4 b d1 d2 d3) => some (.r4 b d3 d1 d2)
  | _ => none

/-- `x.reshape(target dims)` with all dims given: succeeds iff the element
counts agree. -/
def reshapeS (t : Shp) : Option Shp → Option Shp
  | some s => if s.numel = t.numel then some t else none
  | none => none

/-- `x.reshape(d0, d1, d2, -1)`: the known product must be non-zero and must
divide the element count; the trailing dim is inferred. -/
def reshapeInfer4S (d0 d1 d2 : Nat) : Option Shp → Option Shp
  | some s =>
      if d0 * d1 * d2 ≠ 0 ∧ (d0 * d1 * d2) ∣ s.numel then
        some (.r4 d0 d1 d2 (s.numel / (d0 * d1 * d2)))
      else none
  | none => none

/-- `x.reshape(d0, -1, d2, d3)`: dim 1 is inferred. -/
def reshapeInfer4Dim1S (d0 d2 d3 : Nat) : Option Shp → Option Shp
  | some s =>
      if d0 * d2 * d3 ≠ 0 ∧ (d0 * d2 * d3) ∣ s.numel then
        some (.r4 d0 (s.numel / (d0 * d2 * d3)) d2 d3)
      else none
  | none => none

/-- `x.reshape(d0, d1, -1)`: the trailing dim is inferred. -/
def reshapeInfer3S (d0 d1 : Nat) : Option Shp → Option Shp
  | some s =>
      if d0 * d1 ≠ 0 ∧ (d0 * d1) ∣ s.numel then
        some (.r3 d0 d1 (s.numel / (d0 * d1)))
      else none
  | none => none

/-- Element-wise addition of two tensors of identical shape (all residual
additions in `DecoderC.py` add identically-shaped tensors). -/
def addS : Option Shp → Option Shp → Option Shp
  | some s, some t => if t = s then some s else none
  | _, _ => none

/-- `attn + relative_pos`: rank-4 attention logits plus the rank-3 learned
bias, PyTorch broadcasting over the leading batch dim (each trailing dim of
the bias must equal the corresponding logits dim or be 1). -/
def addRelPosS (attn : Option Shp) (relPos : Shp) : Option Shp :=
  match attn, relPos with
  | some (.r4 b h n m), .r3 h2 n2 m2 =>
      if (h2 = h ∨ h2 = 1) ∧ (n2 = n ∨ n2 = 1) ∧ (m2 = m ∨ m2 = 1) then
        some (.r4 b h n m)
      else none
  | _, _ => none

/-- Batched `@` matrix product of two rank-4 tensors. -/
def matmul4S : Option Shp → Option Shp → Option Shp
  | some (.r4 b h n e), some (.r4 b2 h2 e2 m) =>
      if b2 = b ∧ h2 = h ∧ e2 = e then some (.r4 b h n m) else none
  | _, _ => none

/-- `torch.cat([x, y], dim=2)` on rank-3 tensors: the other dims must agree
and the trailing dims add. -/
def catDim2S : Option Shp → Option Shp → Option Shp
  | some (.r3 b n c1), some (.r3 b2 n2 c2) =>
      if b2 = b ∧ n2 = n then some (.r3 b n (c1 + c2)) else none
  | _, _ => none

/-- `nn.LayerNorm(d)` applied to a rank-3 tensor. -/
def layerNormS (d : Nat) : Option Shp → Option Shp
  | some (.r3 b n c) => if c = d then some (.r3 b n c) else none
  | _ => none

/-- `nn.BatchNorm2d(d)`. -/
def batchNorm2dS (d : Nat) : Option Shp → Option Shp
  | some (.r4 b c h w) => if c = d then some (.r4 b c h w) else none
  | _ => none

/-- `nn.Conv2d(inC, outC, k, stride=s, padding=p, groups=g)`: input channels
must equal `inC`, `g` must divide both channel counts, the padded size must
cover the kernel, and the output spatial size is `(len + 2p - k) / s + 1`. -/
def conv2dS (inC outC k s p g : Nat) : Option Shp → Option Shp
  | some (.r4 b c h w) =>
      if c = inC ∧ g ∣ inC ∧ g ∣ outC ∧ k ≤ h + 2 * p ∧ k ≤ w + 2 * p then
        some (.r4 b outC ((h + 2 * p - k) / s + 1) ((w + 2 * p - k) / s + 1))
      else none
  | _ => none

/-- `nn.Fold(output_size=(oH, oW), kernel_size=k, stride=s, padding=p)`:
input `(B, C·k², L)` must have `k² ∣ C·k²` and
`L = ((oH + 2p - k)/s + 1) · ((oW + 2p - k)/s + 1)`; output `(B, C, oH, oW)`. -/
def foldS (oH oW k s p : Nat) : Option Shp → Option Shp
  | some (.r3 b ck l) =>
      if k * k ∣ ck ∧ k ≤ oH + 2 * p ∧ k ≤ oW + 2 * p ∧
         l = ((oH + 2 * p - k) / s + 1) * ((oW + 2 * p - k) / s + 1) then
        some (.r4 b (ck / (k * k)) oH oW)
      else none
  | _ => none

/-- `CrossAttention` module configuration (`DecoderC.py` lines 35-52):
queries are projected from width `dim1`, keys/values from width `dim2`, all
to width `dim` split into `heads` heads; the output is projected back to
`dim1`. -/
structure CrossAttentionS where
  dim1 : Nat
  dim2 : Nat
  dim : Nat
  heads : Nat
deriving DecidableEq

/-- Shape semantics of `CrossAttention.forward` (`DecoderC.py` lines 54-73).
`B, N` are read from `depth_fea.shape`, `N1` from `fea.shape`; dropout and
the scalar scale do not change shapes. -/
def crossAttnS (m : CrossAttentionS) (fea depth : Option Shp) : Option Shp :=
  match fea, depth with
  | some (.r3 bf n1 d1), some (.r3 b n d2) =>
      let q1l := linearS m.dim1 m.dim (some (.r3 bf n1 d1))
      let q1r := reshapeS (.r4 b n1 m.heads (m.dim / m.heads)) q1l
      let q1 := permute0213S q1r
      let k2l := linearS m.dim2 m.dim (some (.r3 b n d2))
      let k2r := reshapeS (.r4 b n m.heads (m.dim / m.heads)) k2l
      let k2 := permute0213S k2r
      let v2l := linearS m.dim2 m.dim (some (.r3 b n d2))
      let v2r := reshapeS (.r4 b n m.heads (m.dim / m.heads)) v2l
      let v2 := permute0213S v2r
      let attn := matmul4S q1 (transposeLast2S k2)
      let av := matmul4S (softmaxS attn) v2
      let fea2 := reshapeS (.r3 b n1 m.dim) (transpose12S av)
      linearS m.dim m.dim1 fea2
  | _, _ => none

/-- `Attention` module configuration (`DecoderC.py` lines 103-126). -/
structure AttentionS where
  dim : Nat
  heads : Nat
  qk_ratio : Nat
  sr : Nat
deriving DecidableEq

/-- Shape semantics of `Attention.forward` (`DecoderC.py` lines 127-146):
when `sr > 1` the keys/values come from a spatially reduced copy of the
input (strided grouped conv + batch norm); the learned relative-position
bias is added to the logits with broadcasting. -/
def attnS (m : AttentionS) (x : Option Shp) (H W : Nat) (relPos : Shp) :
    Option Shp :=
  match x with
  | some (.r3 b n c) =>
      let qd := m.dim / m.qk_ratio
      let ql := linearS m.dim qd (some (.r3 b n c))
      let qr := reshapeS (.r4 b n m.heads (qd / m.heads)) ql
      let q := permute0213S qr
      let kv :=
        if m.sr > 1 then
          let xp := transpose12S (some (.r3 b n c))
          let xr := reshapeS (.r4 b c H W) xp
          let xc := conv2dS m.dim m.dim m.sr m.sr 0 m.dim xr
          let xb := batchNorm2dS m.dim xc
          let xt := transpose12S (reshapeInfer3S b c xb)
          let kl := linearS m.dim qd xt
          let kr := reshapeInfer4Dim1S b m.heads (qd / m.heads) kl
          let vl := linearS m.dim m.dim xt
          let vr := reshapeInfer4Dim1S b m.heads (c / m.heads) vl
          (permute0213S kr, permute0213S vr)
        else
          let kl := linearS m.dim qd (some (.r3 b n c))
          let kr := reshapeS (.r4 b n m.heads (qd / m.heads)) kl
          let vl := linearS m.dim m.dim (some (.r3 b n c))
          let vr := reshapeS (.r4 b n m.heads (c / m.heads)) vl
          (permute0213S kr, permute0213S vr)
      let attn := matmul4S q (transposeLast2S kv.1)
      let attn2 := addRelPosS attn relPos
      let av := matmul4S (softmaxS attn2) kv.2
      let xo := reshapeS (.r3 b n c) (transpose12S av)
      linearS m.dim m.dim xo
  | _ => none

/-- `Block` module configuration (`DecoderC.py` lines 149-162). -/
structure BlockS where
  dim : Nat
  heads : Nat
  qk_ratio : Nat
  sr : Nat
deriving DecidableEq

/-- Shape semantics of `Block.forward` (`DecoderC.py` lines 164-171):
norm + attention residual, then a depthwise 3×3 conv residual on the
re-spatialised tokens (in place of an MLP). -/
def blockS (m : BlockS) (x : Option Shp) (H W : Nat) (relPos : Shp) :
    Option Shp :=
  match x with
  | some (.r3 b n c) =>
      let xn := layerNormS m.dim (some (.r3 b n c))
      let a1 := attnS ⟨m.dim, m.heads, m.qk_ratio, m.sr⟩ xn H W relPos
      let x1 := addS (some (.r3 b n c)) a1
      let cnn := reshapeS (.r4 b c H W) (transpose12S x1)
      let pc := conv2dS m.dim m.dim 3 1 1 m.dim cnn
      let x2 := addS pc cnn
      transpose12S (flatten2S x2)
  | _ => none

/-- Iterated application of one `Block` (the `for blk in blocks` loops on
`DecoderC.py` lines 349-350 and 358-359; all blocks in one stack share
shape behaviour). -/
def blocksIterS (m : BlockS) (relPos : Shp) (H W : Nat) : Nat → Option Shp → Option Shp
  | 0, x => x
  | d + 1, x => blocksIterS m relPos H W d (blockS m x H W relPos)

/-- `PatchEmbed` module configuration (`DecoderC.py` lines 177-209):
`ms` is the scalar `img_size`, `ps` the scalar `patch_size`; the fold
upsamples to a fixed `ms·s × ms·s` grid. -/
structure PatchEmbedS where
  ms : Nat
  ps : Nat
  inC : Nat
  embed : Nat
  k : Nat
  s : Nat
  p : Nat
  fuse : Bool
deriving DecidableEq

/-- `PatchEmbed.num_patches` (`DecoderC.py` line 182). -/
def PatchEmbedS.num_patches (pe : PatchEmbedS) : Nat :=
  (pe.ms * pe.ps) * (pe.ms * pe.ps)

/-- Body of `PatchEmbed.forward` after the size assertion
(`DecoderC.py` lines 216-230): project each token to `C·k²` channels,
fold to the `ms·s` grid, add the local-perception conv residual, normalize,
then either concat-fuse with the skip-feature and refine with
`CrossAttention` (`fuse = true`) or project alone (`fuse = false`).
Returns the token tensor; the returned `(H, W)` pair is handled by
`peForwardS`. -/
def peBody (pe : PatchEmbedS) (b c h w : Nat) (enc : Option Shp) : Option Shp :=
  let xt := transpose12S (flatten2S (some (.r4 b c h w)))
  let xp := linearS pe.inC (pe.inC * pe.k * pe.k) xt
  let xu := foldS (pe.ms * pe.s) (pe.ms * pe.s) pe.k pe.s pe.p (transpose12S xp)
  let xl := conv2dS pe.inC pe.inC 3 1 1 1 xu
  let xa := addS xl xu
  let xn := layerNormS pe.inC (transpose12S (flatten2S xa))
  if pe.fuse then
    let xc := catDim2S xn enc
    let c1 := linearS (pe.inC + pe.embed) pe.inC xc
    let c2 := linearS pe.inC pe.embed (geluS c1)
    let xn2 := layerNormS pe.embed c2
    let ia := crossAttnS ⟨pe.embed, pe.inC, pe.embed, 4⟩ xn2 xn
    let xs := addS xn2 ia
    layerNormS pe.embed xs
  else
    let c1 := linearS pe.inC pe.inC xn
    let c2 := linearS pe.inC pe.embed (geluS c1)
    layerNormS pe.embed c2

/-- Shape semantics of `PatchEmbed.forward` (`DecoderC.py` lines 211-230):
the input must be rank 4 and the size assertion (line 214) checks
`H = W = img_size` BEFORE any tensor computation; only then does `peBody`
run.  Returns the token tensor together with the updated spatial dims
`(H · patch_size, W · patch_size)` (line 222). -/
def peForwardS (pe : PatchEmbedS) (x : Option Shp) (enc : Option Shp) :
    Option (Shp × Nat × Nat) :=
  match x with
  | some (.r4 b c h w) =>
      if h = pe.ms ∧ w = pe.ms then
        match peBody pe b c h w enc with
        | some o => some (o, h * pe.ps, w * pe.ps)
        | none => none
      else none
  | _ => none

/-- `DecoderC` configuration (`DecoderC.py` lines 232-310): only the fields
read by the live code paths (stage-`a`/`b` blocks are commented out in the
source).  `ed0..ed3` are `embed_dims[0..3]`, `nh2 nh3` are
`num_heads[2], num_heads[3]`, `sr2 sr3` are `sr_ratios[2], sr_ratios[3]`,
`dep2 dep3` are `depths[2], depths[3]`, and `qkr` is `qk_ratio`. -/
structure DecoderCS where
  img : Nat
  ed0 : Nat
  ed1 : Nat
  ed2 : Nat
  ed3 : Nat
  nh2 : Nat
  nh3 : Nat
  sr2 : Nat
  sr3 : Nat
  dep2 : Nat
  dep3 : Nat
  qkr : Nat
deriving DecidableEq

/-- `self.patch_embed_b` (`DecoderC.py` lines 246-247). -/
def DecoderCS.pe_b (m : DecoderCS) : PatchEmbedS :=
  ⟨m.img / 4, 4, m.ed2, m.ed3, 7, 4, 2, false⟩

/-- `self.patch_embed_c` (`DecoderC.py` lines 248-249). -/
def DecoderCS.pe_c (m : DecoderCS) : PatchEmbedS :=
  ⟨m.img / 8, 2, m.ed1, m.ed2, 3, 2, 1, true⟩

/-- `self.patch_embed_d` (`DecoderC.py` lines 250-251). -/
def DecoderCS.pe_d (m : DecoderCS) : PatchEmbedS :=
  ⟨m.img / 16, 2, m.ed0, m.ed1, 3, 2, 1, true⟩

/-- Shape of `self.relative_pos_c` (`DecoderC.py` lines 257-258):
`(num_heads[2], patch_embed_c.num_patches,
patch_embed_c.num_patches // sr_ratios[2] // sr_ratios[2])`,
fixed at construction. -/
def DecoderCS.relative_pos_c (m : DecoderCS) : Shp :=
  .r3 m.nh2 m.pe_c.num_patches (m.pe_c.num_patches / m.sr2 / m.sr2)

/-- Shape of `self.relative_pos_d` (`DecoderC.py` lines 259-260),
fixed at construction. -/
def DecoderCS.relative_pos_d (m : DecoderCS) : Shp :=
  .r3 m.nh3 m.pe_d.num_patches (m.pe_d.num_patches / m.sr3 / m.sr3)

/-- Shape semantics of `DecoderC.forward_features`
(`DecoderC.py` lines 340-375): auxiliary 1/16 mask from a 2-layer MLP,
hard-coded reshape of the coarse tokens to a `14×14` grid, then the
`patch_embed_d → blocks_d → patch_embed_c → blocks_c → patch_embed_b`
pipeline with a mask head after each stage. -/
def DecoderCS.forward_featuresS (m : DecoderCS) (x x18 x14 : Shp) :
    Option (Shp × Shp × Shp × Shp) :=
  match x with
  | .r3 b n c =>
      let sal := linearS m.ed0 m.ed1
        (geluS (linearS m.ed0 m.ed0 (layerNormS m.ed0 (some (.r3 b n c)))))
      let mask16 := reshapeS (.r4 b 1 (m.img / 16) (m.img / 16))
        (transpose12S (linearS m.ed1 1 sal))
      let xr := reshapeS (.r4 b c 14 14) (transpose12S (some (.r3 b n c)))
      match mask16, peForwardS m.pe_d xr (some x18) with
      | some mk16, some (xd, H1, W1) =>
          let xd2 := blocksIterS ⟨m.ed1, m.nh3, m.qkr, m.sr3⟩
            m.relative_pos_d H1 W1 m.dep3 (some xd)
          let mask8 := reshapeS (.r4 b 1 (m.img / 8) (m.img / 8))
            (transpose12S (linearS m.ed1 1 xd2))
          let xpm := permute0312S (reshapeInfer4S b H1 W1 xd2)
          match mask8, peForwardS m.pe_c xpm (some x14) with
          | some mk8, some (xc, H2, W2) =>
              let xc2 := blocksIterS ⟨m.ed2, m.nh2, m.qkr, m.sr2⟩
                m.relative_pos_c H2 W2 m.dep2 (some xc)
              let mask4 := reshapeS (.r4 b 1 (m.img / 4) (m.img / 4))
                (transpose12S (linearS m.ed2 1 xc2))
              let xpm2 := permute0312S (reshapeInfer4S b H2 W2 xc2)
              match mask4, peForwardS m.pe_b xpm2 none with
              | some mk4, some (xb, _H3, _W3) =>
                  let mask1 := reshapeS (.r4 b 1 (m.img / 1) (m.img / 1))
                    (transpose12S (linearS m.ed3 1 (some xb)))
                  match mask1 with
                  | some mk1 => some (mk16, mk8, mk4, mk1)
                  | none => none
              | _, _ => none
          | _, _ => none
      | _, _ => none
  | _ => none

/-- Shape semantics of `DecoderC.forward` (`DecoderC.py` lines 377-385):
the four raw masks followed by their sigmoid counterparts, in the source's
return order. -/
def DecoderCS.forwardS (m : DecoderCS) (x x18 x14 : Shp) : Option (List Shp) :=
  match m.forward_featuresS x x18 x14 with
  | some (m16, m8, m4, m1) =>
      match sigmoidS (some m1), sigmoidS (some m4), sigmoidS (some m8),
          sigmoidS (some m16) with
      | some s1, some s4, some s8, some s16 =>
          some [m16, m8, m4, m1, s16, s8, s4, s1]
      | _, _, _, _ => none
  | none => none

/-- The default `DecoderC()` configuration (`DecoderC.py` lines 233-236):
`img_size=224, embed_dims=[384,128,64,16,4], num_heads=[1,2,4,8],
sr_ratios=[8,4,2,1], depths=[2,3,6,3], qk_ratio=1`. -/
def decoderDefault : DecoderCS :=
  ⟨224, 384, 128, 64, 16, 4, 8, 2, 1, 6, 3, 1⟩

/-- `DecoderC` with the default configuration except `img_size` (used to
study the hard-coded `14×14` reshape on line 347). -/
def decoderWithImg (img : Nat) : DecoderCS :=
  ⟨img, 384, 128, 64, 16, 4, 8, 2, 1, 6, 3, 1⟩

/-!
Value semantics over `ℝ`.  A rank-3 tensor is an index function
`batch → token → channel → ℝ` (values outside the valid index range are
irrelevant junk; the shape model above governs validity), a rank-4 tensor
is `batch → channel → row → col → ℝ`.
-/

/-- Rank-3 value tensor `(B, N, C)`. -/
def T3R : Type := Nat → Nat → Nat → ℝ

/-- Rank-4 value tensor `(B, C, H, W)`. -/
def T4R : Type := Nat → Nat → Nat → Nat → ℝ

/-- The all-zero rank-4 tensor (used as a `getD` default). -/
def t4zero : T4R := fun _ _ _ _ => 0

/-- `nn.Linear(inF, _)` with weight `w` (PyTorch layout `w[out, in]`) and
bias, applied along the trailing dim of a rank-3 tensor:
`y[b,n,o] = Σ_i w[o,i]·x[b,n,i] + bias[o]`. -/
noncomputable def linearV (inF : Nat) (w : Nat → Nat → ℝ) (bias : Nat → ℝ)
    (x : T3R) : T3R :=
  fun b n o => (∑ i ∈ Finset.range inF, w o i * x b n i) + bias o

/-- `nn.Linear(inF, _, bias=False)`. -/
noncomputable def linearNBV (inF : Nat) (w : Nat → Nat → ℝ) (x : T3R) : T3R :=
  fun b n o => ∑ i ∈ Finset.range inF, w o i * x b n i

/-- `x.transpose(1, 2)` on values. -/
def transpose12V (x : T3R) : T3R := fun b i j => x b j i

/-- `x.flatten(2)` on values: row-major flattening of a `…×W` grid. -/
def flatten2V (W : Nat) (x : T4R) : T3R := fun b c n => x b c (n / W) (n % W)

/-- `nn.Fold(kernel_size=k, stride=s, padding=p)` (overlap-add
reconstruction) with `nb` blocks per side: output position `(oy, ox)` sums
every kernel cell of every block that covers it; input channel layout is
`c·k² + ky·k + kx` and block layout `i·nb + j`, as in `torch.nn.Fold`. -/
noncomputable def foldV (k s p nb : Nat) (x : T3R) : T4R :=
  fun b c oy ox =>
    ∑ i ∈ Finset.range nb, ∑ j ∈ Finset.range nb,
      ∑ ky ∈ Finset.range k, ∑ kx ∈ Finset.range k,
        if i * s + ky = oy + p ∧ j * s + kx = ox + p then
          x b (c * (k * k) + ky * k + kx) (i * nb + j)
        else 0

/-- `nn.Conv2d(inC, _, k, stride=1, padding=p)` on an `H×W` grid with
zero padding (weight layout `w[out, in, ky, kx]`). -/
noncomputable def conv2dV (inC k p H W : Nat) (w : Nat → Nat → Nat → Nat → ℝ)
    (bias : Nat → ℝ) (x : T4R) : T4R :=
  fun b c y z =>
    bias c + ∑ c2 ∈ Finset.range inC, ∑ ky ∈ Finset.range k, ∑ kx ∈ Finset.range k,
      if p ≤ y + ky ∧ y + ky < H + p ∧ p ≤ z + kx ∧ z + kx < W + p then
        w c c2 ky kx * x b c2 (y + ky - p) (z + kx - p)
      else 0

/-- `nn.LayerNorm(d)` (default `eps = 1e-5`) with elementwise affine
parameters, over the trailing dim of a rank-3 tensor. -/
noncomputable def layerNormV (d : Nat) (g bt : Nat → ℝ) (x : T3R) : T3R :=
  fun b n c =>
    let mu := (∑ i ∈ Finset.range d, x b n i) / (d : ℝ)
    let vr := (∑ i ∈ Finset.range d, (x b n i - mu) ^ 2) / (d : ℝ)
    g c * ((x b n c - mu) / Real.sqrt (vr + 1e-5)) + bt c

/-- Standard normal CDF `Φ`. -/
noncomputable def stdNormalCDF (x : ℝ) : ℝ :=
  (Real.sqrt (2 * Real.pi))⁻¹ * ∫ t in Set.Iic x, Real.exp (-(t ^ 2) / 2)

/-- `nn.GELU()` (exact form): `GELU(x) = x · Φ(x)`. -/
noncomputable def geluV (x : ℝ) : ℝ := x * stdNormalCDF x

/-- `softmax(dim=-1)` over the trailing axis of length `m` of a rank-4
tensor (the mathematical form; PyTorch's max-subtraction is a
value-preserving stabilisation). -/
noncomputable def softmaxV (m : Nat) (x : T4R) : T4R :=
  fun b h n j => Real.exp (x b h n j) / ∑ i ∈ Finset.range m, Real.exp (x b h n i)

/-- `CrossAttention` value-level parameters (`DecoderC.py` lines 36-52):
`q1`, `k2`, `v2` are bias-free (`qkv_bias=False` at the call site on
line 203), `proj` has a bias. -/
structure CrossAttentionV where
  dim1 : Nat
  dim2 : Nat
  dim : Nat
  heads : Nat
  q1w : Nat → Nat → ℝ
  k2w : Nat → Nat → ℝ
  v2w : Nat → Nat → ℝ
  projw : Nat → Nat → ℝ
  projb : Nat → ℝ

/-- Value semantics of `CrossAttention.forward` (`DecoderC.py` lines
54-73); `N2` is the key/value token count (from `depth_fea.shape`).
`q.reshape(B, N1, heads, C//heads).permute(0,2,1,3)` maps the flat channel
`h·(C/heads) + i` to head `h`, inner index `i`; `scale = head_dim ** -0.5`;
dropout layers are identities in inference. -/
noncomputable def CrossAttentionV.forwardV (m : CrossAttentionV) (N2 : Nat)
    (fea depth : T3R) : T3R :=
  let e := m.dim / m.heads
  let q1 := linearNBV m.dim1 m.q1w fea
  let k2 := linearNBV m.dim2 m.k2w depth
  let v2 := linearNBV m.dim2 m.v2w depth
  let scale : ℝ := ((m.dim / m.heads : Nat) : ℝ) ^ (-(1 : ℝ) / 2)
  let attn : T4R := fun b h n j =>
    (∑ i ∈ Finset.range e, q1 b n (h * e + i) * k2 b j (h * e + i)) * scale
  let attn2 := softmaxV N2 attn
  let fea2 : T3R := fun b n c =>
    ∑ j ∈ Finset.range N2, attn2 b (c / e) n j * v2 b j ((c / e) * e + c % e)
  linearV m.dim m.projw m.projb fea2

/-- `PatchEmbed` value-level parameters (`DecoderC.py` lines 177-209).
When `fuse = false`, `concatFuse` is `Linear(inC, inC) → GELU →
Linear(inC, embed)` and `interact` is absent (its field is ignored). -/
structure PatchEmbedV where
  ms : Nat
  ps : Nat
  k : Nat
  s : Nat
  p : Nat
  inC : Nat
  embed : Nat
  fuse : Bool
  projectW : Nat → Nat → ℝ
  projectB : Nat → ℝ
  lpuW : Nat → Nat → Nat → Nat → ℝ
  lpuB : Nat → ℝ
  normW : Nat → ℝ
  normB : Nat → ℝ
  norm2W : Nat → ℝ
  norm2B : Nat → ℝ
  norm3W : Nat → ℝ
  norm3B : Nat → ℝ
  cf1W : Nat → Nat → ℝ
  cf1B : Nat → ℝ
  cf2W : Nat → Nat → ℝ
  cf2B : Nat → ℝ
  interact : CrossAttentionV

/-- Value semantics of `PatchEmbed.forward` (`DecoderC.py` lines 211-230)
on a valid `(B, inC, H, W)` input (validity is governed by the shape
model): project tokens to `inC·k²` channels, fold to the `ms·s` grid
(`nb` blocks per side), add the `lpu` conv residual, flatten and normalize
(`x0` is the clone taken on line 221); then either concatenate the
skip-feature `enc` on the channel axis, apply `concatFuse`, `norm2`, the
`interact` cross-attention residual and `norm3` (`fuse = true`), or apply
`concatFuse` and `norm2` alone (`fuse = false`, `enc` untouched). -/
noncomputable def PatchEmbedV.forwardV (pe : PatchEmbedV) (H W : Nat)
    (x : T4R) (enc : T3R) : T3R × Nat × Nat :=
  let o := pe.ms * pe.s
  let nb := (o + 2 * pe.p - pe.k) / pe.s + 1
  let x1 := linearV pe.inC pe.projectW pe.projectB (transpose12V (flatten2V W x))
  let x2 := foldV pe.k pe.s pe.p nb (transpose12V x1)
  let x3 : T4R := fun b c y z =>
    conv2dV pe.inC 3 1 o o pe.lpuW pe.lpuB x2 b c y z + x2 b c y z
  let x0 := layerNormV pe.inC pe.normW pe.normB (transpose12V (flatten2V o x3))
  if pe.fuse then
    let xc : T3R := fun b n c => if c < pe.inC then x0 b n c else enc b n (c - pe.inC)
    let y2 := linearV pe.inC pe.cf2W pe.cf2B
      (fun b n c => geluV (linearV (pe.inC + pe.embed) pe.cf1W pe.cf1B xc b n c))
    let y3 := layerNormV pe.embed pe.norm2W pe.norm2B y2
    let y4 : T3R := fun b n c => y3 b n c + pe.interact.forwardV (o * o) y3 x0 b n c
    (layerNormV pe.embed pe.norm3W pe.norm3B y4, H * pe.ps, W * pe.ps)
  else
    let y2 := linearV pe.inC pe.cf2W pe.cf2B
      (fun b n c => geluV (linearV pe.inC pe.cf1W pe.cf1B x0 b n c))
    (layerNormV pe.embed pe.norm2W pe.norm2B y2, H * pe.ps, W * pe.ps)

/-- `torch.sigmoid` / `nn.Sigmoid()`: `σ(x) = 1 / (1 + exp(-x))`. -/
noncomputable def sigmoidR (x : ℝ) : ℝ := 1 / (1 + Real.exp (-x))

/-- Element-wise sigmoid of a rank-4 mask tensor. -/
noncomputable def sigmoidT (t : T4R) : T4R := fun b c y z => sigmoidR (t b c y z)

/-- Value semantics of the sigmoid stage of `DecoderC.forward`
(`DecoderC.py` lines 377-385), taking the four raw mask logit tensors
produced by `forward_features` as inputs: `m_1 = s1(mask_1_1)`,
`m_4 = s2(mask_1_4)`, `m_8 = s3(mask_1_8)`, `m_16 = s4(mask_1_16)`, and
the returned list is
`[mask_1_16, mask_1_8, mask_1_4, mask_1_1, m_16, m_8, m_4, m_1]`. -/
noncomputable def forwardSigmoidStage (m16 m8 m4 m1 : T4R) : List T4R :=
  [m16, m8, m4, m1, sigmoidT m16, sigmoidT m8, sigmoidT m4, sigmoidT m1]

/-!
String-level embedding of `dataset.py`'s `load_list` (lines 9-106).
The nine `os.listdir(img_root)` results are passed in as arguments, in
the order the source queries them.
-/

/-- `load_list` (`dataset.py` lines 9-106): for each dataset branch, every
listed file `img` contributes the image path
`img_root + img[:-4] + ext` and the label path
`img_root.replace('/train_A/', '/train_B/') + img[:-4] + ext'`, where
`img_root = data_root + name + '/train_A/'`; appended branch by branch in
source order.  Extensions per branch are exactly the source's literals
(ISTD branches: `.png`/`.png`; `SRD_BM`, `SRD_DSC`, `SRD_TG`:
`.jpg`/`.jpg`; `SRD_DC`: image `.png`, label `.jpg`). -/
def load_list (data_root : String)
    (istd_sp istd_dsc istd_dc istd_bm istd_tg srd_bm srd_dc srd_dsc srd_tg :
      List String) : List String × List String :=
  let imgs := fun (name ext : String) (files : List String) =>
    files.map (fun img => (data_root ++ name ++ "/train_A/") ++ img.dropRight 4 ++ ext)
  let lbls := fun (name ext : String) (files : List String) =>
    files.map (fun img =>
      ((data_root ++ name ++ "/train_A/").replace "/train_A/" "/train_B/") ++
        img.dropRight 4 ++ ext)
  (imgs "ISTD_SP" ".png" istd_sp ++ imgs "ISTD_DSC" ".png" istd_dsc ++
     imgs "ISTD_DC" ".png" istd_dc ++ imgs "ISTD_BM" ".png" istd_bm ++
     imgs "ISTD_TG" ".png" istd_tg ++ imgs "SRD_BM" ".jpg" srd_bm ++
     imgs "SRD_DC" ".png" srd_dc ++ imgs "SRD_DSC" ".jpg" srd_dsc ++
     imgs "SRD_TG" ".jpg" srd_tg,
   lbls "ISTD_SP" ".png" istd_sp ++ lbls "ISTD_DSC" ".png" istd_dsc ++
     lbls "ISTD_DC" ".png" istd_dc ++ lbls "ISTD_BM" ".png" istd_bm ++
     lbls "ISTD_TG" ".png" istd_tg ++ lbls "SRD_BM" ".jpg" srd_bm ++
     lbls "SRD_DC" ".jpg" srd_dc ++ lbls "SRD_DSC" ".jpg" srd_dsc ++
     lbls "SRD_TG" ".jpg" srd_tg)

/-!
Concrete instances used by the witness theorems.
-/

/-- A concrete `PatchEmbedS` with `img_size = 5` (used to witness the size
check). -/
def peSmall : PatchEmbedS := ⟨5, 2, 3, 4, 3, 2, 1, false⟩

/-- A concrete value-level `CrossAttentionV` with all-zero weights. -/
noncomputable def caV0 : CrossAttentionV :=
  ⟨1, 1, 1, 1, fun _ _ => 0, fun _ _ => 0, fun _ _ => 0, fun _ _ => 0, fun _ => 0⟩

/-- A concrete value-level `PatchEmbed` with `fuse = false` and all-zero
weights. -/
noncomputable def peV0 : PatchEmbedV :=
  ⟨1, 1, 1, 1, 0, 1, 1, false,
   fun _ _ => 0, fun _ => 0, fun _ _ _ _ => 0, fun _ => 0,
   fun _ => 1, fun _ => 0, fun _ => 1, fun _ => 0, fun _ => 1, fun _ => 0,
   fun _ _ => 0, fun _ => 0, fun _ _ => 0, fun _ => 0, caV0⟩

/-- A concrete rank-4 input value tensor. -/
noncomputable def xV0 : T4R := fun _ _ _ _ => 2

/-- A concrete skip-feature value tensor. -/
noncomputable def encV1 : T3R := fun _ _ _ => 0

/-- Another concrete skip-feature value tensor, different from `encV1`. -/
noncomputable def encV2 : T3R := fun _ _ _ => 1

/-!
Evaluation lemmas: the three constructed `PatchEmbed` stages and the two
`Block` stacks, for an arbitrary batch size `b`.
-/

theorem pe_b_eval (b : Nat) :
    peForwardS ⟨56, 4, 64, 16, 7, 4, 2, false⟩ (some (.r4 b 64 56 56)) none =
      some (.r3 b 50176 16, 224, 224) := by
  simp +decide [peForwardS, peBody, flatten2S, transpose12S,
    linearS, foldS, conv2dS, addS, layerNormS, geluS, reshapeS, Shp.numel, Nat.mul_assoc]

theorem pe_d_eval (b : Nat) :
    peForwardS ⟨14, 2, 384, 128, 3, 2, 1, true⟩ (some (.r4 b 384 14 14))
      (some (.r3 b 784 128)) = some (.r3 b 784 128, 28, 28) := by
  simp +decide [peForwardS, peBody, flatten2S, transpose12S,
    linearS, foldS, conv2dS, addS, layerNormS, catDim2S, geluS, crossAttnS, reshapeS,
    permute0213S, transposeLast2S, matmul4S, softmaxS, Shp.numel, Nat.mul_assoc]

theorem pe_c_eval (b : Nat) :
    peForwardS ⟨28, 2, 128, 64, 3, 2, 1, true⟩ (some (.r4 b 128 28 28))
      (some (.r3 b 3136 64)) = some (.r3 b 3136 64, 56, 56) := by
  simp +decide [peForwardS, peBody, flatten2S, transpose12S,
    linearS, foldS, conv2dS, addS, layerNormS, catDim2S, geluS, crossAttnS, reshapeS,
    permute0213S, transposeLast2S, matmul4S, softmaxS, Shp.numel, Nat.mul_assoc]

theorem block_d_eval (b : Nat) :
    blockS ⟨128, 8, 1, 1⟩ (some (.r3 b 784 128)) 28 28 (.r3 8 784 784) =
      some (.r3 b 784 128) := by
  simp +decide [blockS, attnS, layerNormS, linearS, reshapeS, permute0213S, transposeLast2S,
    matmul4S, softmaxS, addRelPosS, addS, transpose12S, flatten2S, conv2dS, Shp.numel,
    Nat.mul_assoc]

theorem block_c_eval (b : Nat) (hb : 0 < b) :
    blockS ⟨64, 4, 1, 2⟩ (some (.r3 b 3136 64)) 56 56 (.r3 4 3136 784) =
      some (.r3 b 3136 64) := by
  have h1 : b * 64 ≠ 0 := by positivity
  have h2 : b * 64 ∣ b * 50176 := ⟨784, by ring⟩
  have h3 : b * 50176 / (b * 64) = 784 := by
    rw [show b * 50176 = (b * 64) * 784 by ring]
    exact Nat.mul_div_cancel_left _ (by positivity)
  simp +decide [blockS, attnS, layerNormS, linearS, reshapeS, reshapeInfer3S,
    reshapeInfer4Dim1S, batchNorm2dS, permute0213S, transposeLast2S,
    matmul4S, softmaxS, addRelPosS, addS, transpose12S, flatten2S, conv2dS, Shp.numel,
    Nat.mul_assoc, h1, h2, h3]

theorem blocks_d_eval (b : Nat) :
    blocksIterS ⟨128, 8, 1, 1⟩ (.r3 8 784 784) 28 28 3
      (some (.r3 b 784 128)) = some (.r3 b 784 128) := by
  have h : ∀ x, blocksIterS ⟨128, 8, 1, 1⟩ (.r3 8 784 784) 28 28 1 x =
      blockS ⟨128, 8, 1, 1⟩ x 28 28 (.r3 8 784 784) := fun x => rfl
  show blocksIterS _ _ _ _ (2 + 1) _ = _
  rw [blocksIterS, block_d_eval]
  show blocksIterS _ _ _ _ (1 + 1) _ = _
  rw [blocksIterS, block_d_eval]
  rw [h, block_d_eval]

theorem blocks_c_eval (b : Nat) (hb : 0 < b) :
    blocksIterS ⟨64, 4, 1, 2⟩ (.r3 4 3136 784) 56 56 6
      (some (.r3 b 3136 64)) = some (.r3 b 3136 64) := by
  have h : ∀ x, blocksIterS ⟨64, 4, 1, 2⟩ (.r3 4 3136 784) 56 56 1 x =
      blockS ⟨64, 4, 1, 2⟩ x 56 56 (.r3 4 3136 784) := fun x => rfl
  show blocksIterS _ _ _ _ (5 + 1) _ = _
  rw [blocksIterS, block_c_eval b hb]
  show blocksIterS _ _ _ _ (4 + 1) _ = _
  rw [blocksIterS, block_c_eval b hb]
  show blocksIterS _ _ _ _ (3 + 1) _ = _
  rw [blocksIterS, block_c_eval b hb]
  show blocksIterS _ _ _ _ (2 + 1) _ = _
  rw [blocksIterS, block_c_eval b hb]
  show blocksIterS _ _ _ _ (1 + 1) _ = _
  rw [blocksIterS, block_c_eval b hb]
  rw [h, block_c_eval b hb]

/-!
Inversion lemmas: what a successful run of each operation implies about its
input shapes.
-/

theorem linearS_inv {inF outF : Nat} {x : Option Shp} {o : Shp}
    (h : linearS inF outF x = some o) :
    ∃ b n, x = some (.r3 b n inF) ∧ o = .r3 b n outF := by
  match x with
  | none => simp [linearS] at h
  | some (.r3 b n c) =>
      simp only [linearS] at h
      split_ifs at h with hc
      · exact ⟨b, n, by simp [hc], by simp_all⟩
  | some (.r4 b c hh w) => simp [linearS] at h

theorem layerNormS_inv {d : Nat} {x : Option Shp} {o : Shp}
    (h : layerNormS d x = some o) :
    x = some o ∧ ∃ b n, o = .r3 b n d := by
  match x with
  | none => simp [layerNormS] at h
  | some (.r3 b n c) =>
      simp only [layerNormS] at h
      split_ifs at h with hc
      · subst hc
        refine ⟨by simp_all, b, n, by simp_all⟩
  | some (.r4 b c hh w) => simp [layerNormS] at h

theorem addS_inv {x y : Option Shp} {o : Shp} (h : addS x y = some o) :
    x = some o ∧ y = some o := by
  match x, y with
  | none, none => simp [addS] at h
  | none, some t => simp [addS] at h
  | some s, none => simp [addS] at h
  | some s, some t =>
      simp only [addS] at h
      split_ifs at h with hc
      · simp only [Option.some_inj] at h
        subst h; subst hc; exact ⟨rfl, rfl⟩

theorem catDim2S_inv {x y : Option Shp} {o : Shp} (h : catDim2S x y = some o) :
    ∃ b n c1 c2, x = some (.r3 b n c1) ∧ y = some (.r3 b n c2) ∧
      o = .r3 b n (c1 + c2) := by
  match x, y with
  | some (.r3 b n c1), some (.r3 b2 n2 c2) =>
      simp only [catDim2S] at h
      split_ifs at h with hc
      · exact ⟨b, n, c1, c2, rfl, by simp [hc.1, hc.2], by simp_all⟩
  | none, _ => simp [catDim2S] at h
  | some (.r3 _ _ _), none => simp [catDim2S] at h
  | some (.r3 _ _ _), some (.r4 _ _ _ _) => simp [catDim2S] at h
  | some (.r4 _ _ _ _), _ => simp [catDim2S] at h

theorem flatten2S_inv {x : Option Shp} {o : Shp} (h : flatten2S x = some o) :
    ∃ b c hh w, x = some (.r4 b c hh w) ∧ o = .r3 b c (hh * w) := by
  match x with
  | none => simp [flatten2S] at h
  | some (.r3 _ _ _) => simp [flatten2S] at h
  | some (.r4 b c hh w) =>
      simp only [flatten2S, Option.some_inj] at h
      exact ⟨b, c, hh, w, rfl, h.symm⟩

theorem transpose12S_inv3 {x : Option Shp} {b n c : Nat}
    (h : transpose12S x = some (.r3 b n c)) : x = some (.r3 b c n) := by
  match x with
  | none => simp [transpose12S] at h
  | some (.r3 b2 n2 c2) =>
      simp only [transpose12S, Option.some_inj] at h
      cases h; rfl
  | some (.r4 _ _ _ _) => simp [transpose12S] at h

theorem transpose12S_inv4 {x : Option Shp} {p q r t : Nat}
    (hx : transpose12S x = some (.r4 p q r t)) : x = some (.r4 p r q t) := by
  match x with
  | none => simp [transpose12S] at hx
  | some (.r3 _ _ _) => simp [transpose12S] at hx
  | some (.r4 b2 c2 h2 w2) =>
      simp only [transpose12S, Option.some_inj] at hx
      cases hx; rfl

theorem foldS_inv {oH oW k s p : Nat} {x : Option Shp} {o : Shp}
    (h : foldS oH oW k s p x = some o) :
    ∃ b ck, x = some (.r3 b ck
        (((oH + 2 * p - k) / s + 1) * ((oW + 2 * p - k) / s + 1))) ∧
      o = .r4 b (ck / (k * k)) oH oW ∧ k ≤ oH + 2 * p := by
  match x with
  | none => simp [foldS] at h
  | some (.r4 _ _ _ _) => simp [foldS] at h
  | some (.r3 b ck l) =>
      simp only [foldS] at h
      split_ifs at h with hc
      · simp only [Option.some_inj] at h
        exact ⟨b, ck, by rw [hc.2.2.2], h.symm, hc.2.1⟩

theorem reshapeS_inv {t : Shp} {x : Option Shp} {o : Shp}
    (h : reshapeS t x = some o) :
    o = t ∧ ∃ s, x = some s ∧ s.numel = t.numel := by
  match x with
  | none => simp [reshapeS] at h
  | some s =>
      simp only [reshapeS] at h
      split_ifs at h with hc
      · simp only [Option.some_inj] at h
        exact ⟨h.symm, s, rfl, hc⟩

theorem reshapeInfer4S_inv {d0 d1 d2 : Nat} {x : Option Shp} {o : Shp}
    (h : reshapeInfer4S d0 d1 d2 x = some o) :
    d0 * d1 * d2 ≠ 0 ∧ ∃ s, x = some s ∧
      o = .r4 d0 d1 d2 (s.numel / (d0 * d1 * d2)) := by
  match x with
  | none => simp [reshapeInfer4S] at h
  | some s =>
      simp only [reshapeInfer4S] at h
      split_ifs at h with hc
      · simp only [Option.some_inj] at h
        exact ⟨hc.1, s, rfl, h.symm⟩

theorem permute0312S_inv {x : Option Shp} {o : Shp} (h : permute0312S x = some o) :
    ∃ b d1 d2 d3, x = some (.r4 b d1 d2 d3) ∧ o = .r4 b d3 d1 d2 := by
  match x with
  | none => simp [permute0312S] at h
  | some (.r3 _ _ _) => simp [permute0312S] at h
  | some (.r4 b d1 d2 d3) =>
      simp only [permute0312S, Option.some_inj] at h
      exact ⟨b, d1, d2, d3, rfl, h.symm⟩

theorem peBody_inv {pe : PatchEmbedS} {b c h w : Nat} {enc : Option Shp} {o : Shp}
    (hpb : peBody pe b c h w enc = some o) :
    o = .r3 b ((pe.ms * pe.s) * (pe.ms * pe.s)) pe.embed ∧
      (pe.fuse = true →
        enc = some (.r3 b ((pe.ms * pe.s) * (pe.ms * pe.s)) pe.embed)) := by
  by_cases hf : pe.fuse
  · simp only [peBody, hf, if_true] at hpb
    obtain ⟨hxs, b1, n1, ho⟩ := layerNormS_inv hpb
    rw [ho] at hxs
    obtain ⟨hxn2, hia⟩ := addS_inv hxs
    obtain ⟨hc2, b2, n2, ho2⟩ := layerNormS_inv hxn2
    rw [ho2] at hc2
    obtain ⟨b3, n3, hg, ho3⟩ := linearS_inv hc2
    simp only [geluS] at hg
    obtain ⟨b4, n4, hcat, ho4⟩ := linearS_inv hg
    obtain ⟨b5, n5, c5, c6, hxn, henc, ho5⟩ := catDim2S_inv hcat
    obtain ⟨hxt3, b6, n6, ho6⟩ := layerNormS_inv hxn
    rw [ho6] at hxt3
    have hxt3b := transpose12S_inv3 hxt3
    obtain ⟨b7, c7, h7, w7, hxa, ho7⟩ := flatten2S_inv hxt3b
    obtain ⟨hxl, hxu⟩ := addS_inv hxa
    obtain ⟨b8, ck8, hxp, ho8, hk8⟩ := foldS_inv hxu
    have hxpb := transpose12S_inv3 hxp
    obtain ⟨b9, n9, hin, ho9⟩ := linearS_inv hxpb
    simp only [flatten2S, transpose12S, Option.some_inj] at hin
    simp only [Shp.r3.injEq, Shp.r4.injEq, and_true, eq_self_iff_true]
      at hin ho9 ho7 ho8 ho6 ho5 ho4 ho3 ho2
    obtain ⟨rfl, rfl, rfl⟩ := hin
    obtain ⟨rfl, hL, hck⟩ := ho9
    obtain ⟨rfl, hc7, rfl⟩ := ho7
    obtain ⟨rfl, hck2, rfl, rfl⟩ := ho8
    obtain ⟨rfl, rfl, rfl⟩ := ho6
    obtain ⟨rfl, rfl, hw5⟩ := ho5
    obtain ⟨rfl, rfl⟩ := ho4
    obtain ⟨rfl, rfl⟩ := ho3
    obtain ⟨rfl, rfl⟩ := ho2
    have hc6 : c6 = pe.embed := by omega
    subst hc6
    exact ⟨ho, fun _ => henc⟩
  · simp [peBody, hf] at hpb
    obtain ⟨hc2, b1, n1, ho⟩ := layerNormS_inv hpb
    rw [ho] at hc2
    obtain ⟨b3, n3, hg, ho3⟩ := linearS_inv hc2
    simp only [geluS] at hg
    obtain ⟨b4, n4, hxn, ho4⟩ := linearS_inv hg
    obtain ⟨hxt3, b6, n6, ho6⟩ := layerNormS_inv hxn
    rw [ho6] at hxt3
    have hxt3b := transpose12S_inv3 hxt3
    obtain ⟨b7, c7, h7, w7, hxa, ho7⟩ := flatten2S_inv hxt3b
    obtain ⟨hxl, hxu⟩ := addS_inv hxa
    obtain ⟨b8, ck8, hxp, ho8, hk8⟩ := foldS_inv hxu
    have hxpb := transpose12S_inv3 hxp
    obtain ⟨b9, n9, hin, ho9⟩ := linearS_inv hxpb
    simp only [flatten2S, transpose12S, Option.some_inj] at hin
    simp only [Shp.r3.injEq, Shp.r4.injEq, and_true, eq_self_iff_true]
      at hin ho9 ho7 ho8 ho6 ho4 ho3
    obtain ⟨rfl, rfl, rfl⟩ := hin
    obtain ⟨rfl, hL, hck⟩ := ho9
    obtain ⟨rfl, hc7, rfl⟩ := ho7
    obtain ⟨rfl, hck2, rfl, rfl⟩ := ho8
    obtain ⟨rfl, rfl, rfl⟩ := ho6
    obtain ⟨rfl, rfl⟩ := ho4
    obtain ⟨rfl, rfl⟩ := ho3
    refine ⟨ho, fun hff => absurd hff (by simp [hf])⟩

theorem peForwardS_inv {pe : PatchEmbedS} {x enc : Option Shp} {o : Shp}
    {H2 W2 : Nat} (hs : peForwardS pe x enc = some (o, H2, W2)) :
    ∃ b c, x = some (.r4 b c pe.ms pe.ms) ∧ H2 = pe.ms * pe.ps ∧
      W2 = pe.ms * pe.ps ∧
      o = .r3 b ((pe.ms * pe.s) * (pe.ms * pe.s)) pe.embed ∧
      (pe.fuse = true →
        enc = some (.r3 b ((pe.ms * pe.s) * (pe.ms * pe.s)) pe.embed)) := by
  match x with
  | none => simp [peForwardS] at hs
  | some (.r3 _ _ _) => simp [peForwardS] at hs
  | some (.r4 b c h w) =>
      simp only [peForwardS] at hs
      split_ifs at hs with hg
      obtain ⟨hh, hw⟩ := hg
      subst hh hw
      match hpb : peBody pe b c pe.ms pe.ms enc with
      | none => rw [hpb] at hs; simp at hs
      | some ob =>
          rw [hpb] at hs
          simp only [Option.some_inj, Prod.mk.injEq] at hs
          obtain ⟨rfl, rfl, rfl⟩ := hs
          obtain ⟨hob, hext⟩ := peBody_inv hpb
          exact ⟨b, c, rfl, rfl, rfl, hob, hext⟩

theorem blockS_inv {m : BlockS} {x : Option Shp} {H W : Nat} {rp : Shp} {o : Shp}
    (hs : blockS m x H W rp = some o) :
    ∃ b n c, x = some (.r3 b n c) ∧ o = .r3 b (H * W) c := by
  match x with
  | none => simp [blockS] at hs
  | some (.r4 _ _ _ _) => simp [blockS] at hs
  | some (.r3 b n c) =>
      simp only [blockS] at hs
      match ho : transpose12S (flatten2S (addS
          (conv2dS m.dim m.dim 3 1 1 m.dim
            (reshapeS (.r4 b c H W) (transpose12S (addS (some (.r3 b n c))
              (attnS ⟨m.dim, m.heads, m.qk_ratio, m.sr⟩
                (layerNormS m.dim (some (.r3 b n c))) H W rp)))))
          (reshapeS (.r4 b c H W) (transpose12S (addS (some (.r3 b n c))
            (attnS ⟨m.dim, m.heads, m.qk_ratio, m.sr⟩
              (layerNormS m.dim (some (.r3 b n c))) H W rp)))))) with
      | none => rw [ho] at hs; exact absurd hs (by simp)
      | some oz =>
          rw [ho] at hs
          simp only [Option.some_inj] at hs
          subst hs
          match hoz : oz with
          | .r4 _ _ _ _ =>
              have hfl := transpose12S_inv4 ho
              obtain ⟨_, _, _, _, _, hcon⟩ := flatten2S_inv hfl
              exact Shp.noConfusion hcon
          | .r3 bz nz cz =>
              have hfl := transpose12S_inv3 ho
              obtain ⟨b7, c7, h7, w7, hxa, ho7⟩ := flatten2S_inv hfl
              obtain ⟨hpc, hcnn⟩ := addS_inv hxa
              obtain ⟨hoc, s8, hs8, hn8⟩ := reshapeS_inv hcnn
              simp only [Shp.r3.injEq, Shp.r4.injEq] at ho7 hoc
              obtain ⟨rfl, rfl, rfl, rfl⟩ := hoc
              obtain ⟨rfl, rfl, rfl⟩ := ho7
              exact ⟨_, _, _, rfl, rfl⟩

theorem blocksIterS_inv {m : BlockS} {rp : Shp} {H W : Nat} :
    ∀ {d : Nat} {x : Option Shp} {o : Shp}, 0 < d →
      blocksIterS m rp H W d x = some o → ∃ b n c, x = some (.r3 b n c) ∧
        o = .r3 b (H * W) c := by
  intro d
  induction d with
  | zero => intro x o hd; omega
  | succ d ih =>
      intro x o _ hs
      rw [blocksIterS] at hs
      rcases Nat.eq_zero_or_pos d with hd0 | hdpos
      · subst hd0
        rw [blocksIterS] at hs
        exact blockS_inv hs
      · obtain ⟨b2, n2, c2, hmid, ho2⟩ := ih hdpos hs
        obtain ⟨b3, n3, c3, hx, ho3⟩ := blockS_inv hmid
        simp only [Shp.r3.injEq] at ho3
        obtain ⟨rfl, rfl, rfl⟩ := ho3
        exact ⟨_, _, _, hx, ho2⟩

/-- A successful `forward_features` run (default configuration, arbitrary
`img_size`) forces the hard-coded `14×14` grid: the coarse input must have
exactly `196` tokens and `img_size` must be exactly `224`. -/
theorem forwardFeatures_img_inv {img b n c : Nat} {x18 x14 : Shp}
    {ms : Shp × Shp × Shp × Shp}
    (hs : (decoderWithImg img).forward_featuresS (.r3 b n c) x18 x14 = some ms) :
    n = 196 ∧ img = 224 := by
  simp only [DecoderCS.forward_featuresS] at hs
  split at hs
  case _ mk16 xd H1 W1 heqA heqPd =>
    split at hs
    case _ mk8 xc H2 W2 heqB heqPc =>
      split at hs
      case _ mk4 xb H3 W3 heqC heqPb =>
        split at hs
        case _ mk1 heqD =>
          clear hs
          obtain ⟨b2, c2, hxr, hH1, hW1, hxd, -⟩ := peForwardS_inv heqPd
          obtain ⟨b4, c4, hxpm, hH2, hW2, hxc, -⟩ := peForwardS_inv heqPc
          obtain ⟨b5, c5, hxpm2, hH3, hW3, hxb, -⟩ := peForwardS_inv heqPb
          simp only [DecoderCS.pe_d, DecoderCS.pe_c, DecoderCS.pe_b, decoderWithImg]
            at hxr hH1 hW1 hxd hxpm hH2 hW2 hxc hxpm2 hH3 hW3 hxb
          obtain ⟨ho14, s, hsx, hnum⟩ := reshapeS_inv hxr
          simp only [Shp.r4.injEq] at ho14
          obtain ⟨hb2, hc2, h16, -⟩ := ho14
          simp only [transpose12S, Option.some_inj] at hsx
          subst hsx
          simp only [Shp.numel] at hnum
          simp only [decoderWithImg] at heqA
          obtain ⟨-, sA, htsA, -⟩ := reshapeS_inv heqA
          have hc384 : c = 384 := by
            cases sA with
            | r4 p q r t =>
                obtain ⟨_, _, -, habs⟩ := linearS_inv (transpose12S_inv4 htsA)
                exact Shp.noConfusion habs
            | r3 bz nz cz =>
                have hlin := transpose12S_inv3 htsA
                obtain ⟨b1, n1, hs1, -⟩ := linearS_inv hlin
                obtain ⟨bb2, nn2, hs2, -⟩ := linearS_inv hs1
                simp only [geluS] at hs2
                obtain ⟨bb3, nn3, hs3, -⟩ := linearS_inv hs2
                obtain ⟨hs4, -⟩ := layerNormS_inv hs3
                simp only [Option.some_inj, Shp.r3.injEq] at hs4
                exact hs4.2.2
          obtain ⟨bp, d1, d2, d3, hri, hpo⟩ := permute0312S_inv hxpm
          obtain ⟨hbne, sB, -, hoB⟩ := reshapeInfer4S_inv hri
          simp only [Shp.r4.injEq] at hpo hoB
          obtain ⟨hb4, -, hd1, hd2⟩ := hpo
          obtain ⟨hbp, hH1d, -, -⟩ := hoB
          obtain ⟨bp2, e1, e2, e3, hri2, hpo2⟩ := permute0312S_inv hxpm2
          obtain ⟨hbne2, sC, -, hoC⟩ := reshapeInfer4S_inv hri2
          simp only [Shp.r4.injEq] at hpo2 hoC
          obtain ⟨hb5, -, he1, he2⟩ := hpo2
          obtain ⟨hbp2, hH2e, -, -⟩ := hoC
          subst hxb
          simp only [decoderWithImg, Nat.div_one] at heqD
          obtain ⟨-, sD, htsD, hnumD⟩ := reshapeS_inv heqD
          simp [linearS, transpose12S] at htsD
          subst htsD
          simp only [Shp.numel] at hnumD
          subst hH1 hW1 hH2 hW2
          rw [h16] at hbne hH1d
          have hb : 0 < b := by omega
          have himg8 : img / 8 = 28 := by omega
          rw [himg8] at hH2e
          have himg4 : img / 4 = 56 := by omega
          constructor
          · rw [hc384] at hnum
            rw [Nat.mul_assoc (b * 384) 14 14] at hnum
            have := Nat.eq_of_mul_eq_mul_left (show 0 < b * 384 by positivity) hnum
            omega
          · have hb5b : b5 = b := by omega
            rw [hb5b, himg4] at hnumD
            have hmm2 : b * (56 * 4 * (56 * 4)) = b * (img * img) := by
              rw [show b * (56 * 4 * (56 * 4)) = b * 1 * (56 * 4 * (56 * 4)) by ring,
                hnumD]
              ring
            have := Nat.eq_of_mul_eq_mul_left hb hmm2
            have hbound : 224 ≤ img ∧ img < 228 := by omega
            obtain ⟨hlo, hhi⟩ := hbound
            interval_cases img <;> omega
        case _ => exact absurd hs (by simp)
      case _ => exact absurd hs (by simp)
    case _ => exact absurd hs (by simp)
  case _ => exact absurd hs (by simp)

/-!
Sigmoid facts and list-access helpers.
-/

theorem sigmoidR_pos (x : ℝ) : 0 < sigmoidR x := by
  unfold sigmoidR
  positivity

theorem sigmoidR_lt_one (x : ℝ) : sigmoidR x < 1 := by
  unfold sigmoidR
  rw [div_lt_one (by positivity)]
  linarith [Real.exp_pos (-x)]

theorem getD_map_append {α β : Type} (f : α → β) (l : List α) (y : List β) (d : β)
    (i : Nat) : (List.map f l ++ y).getD (l.length + i) d = y.getD i d := by
  rw [List.getD_append_right _ _ _ _ (by simp)]
  simp

theorem getD_map_here {α β : Type} (f : α → β) (l : List α) (y : List β) (d : β)
    (i : Nat) (h : i < l.length) :
    (List.map f l ++ y).getD i d = f l[i] := by
  rw [List.getD_append _ _ _ _ (by simp [h])]
  rw [List.getD_eq_getElem _ _ (by simp [h])]
  simp

theorem getD_map_only {α β : Type} (f : α → β) (l : List α) (d : β)
    (i : Nat) (h : i < l.length) :
    (List.map f l).getD i d = f l[i] := by
  rw [List.getD_eq_getElem _ _ (by simp [h])]
  simp

/-!
The claims.
-/

/-- C1: with the default configuration (`img_size = 224`), for every batch
size `B > 0`, given coarse features `(B, 196, 384)` and skip-features
`(B, (224/8)², 128)` and `(B, (224/4)², 64)`, `DecoderC.forward` returns a
list of exactly 8 tensors: the 4 raw mask logit maps of shapes
`(B,1,14,14), (B,1,28,28), (B,1,56,56), (B,1,224,224)` (i.e. `img/16`,
`img/8`, `img/4`, `img/1`) in that order, followed by their 4
sigmoid-activated counterparts in the same resolution order. -/
theorem C1_forward_output_shapes (B : Nat) (hB : 0 < B) :
    decoderDefault.forwardS (.r3 B 196 384) (.r3 B 784 128) (.r3 B 3136 64) =
      some [.r4 B 1 14 14, .r4 B 1 28 28, .r4 B 1 56 56, .r4 B 1 224 224,
            .r4 B 1 14 14, .r4 B 1 28 28, .r4 B 1 56 56, .r4 B 1 224 224] := by
  have h1 : B * 784 ≠ 0 := by positivity
  have h2 : B * 784 ∣ B * 100352 := ⟨128, by ring⟩
  have h3 : B * 100352 / (B * 784) = 128 := by
    rw [show B * 100352 = (B * 784) * 128 by ring]
    exact Nat.mul_div_cancel_left _ (by positivity)
  have h4 : B * 3136 ≠ 0 := by positivity
  have h5 : B * 3136 ∣ B * 200704 := ⟨64, by ring⟩
  have h6 : B * 200704 / (B * 3136) = 64 := by
    rw [show B * 200704 = (B * 3136) * 64 by ring]
    exact Nat.mul_div_cancel_left _ (by positivity)
  simp +decide [DecoderCS.forwardS, DecoderCS.forward_featuresS, decoderDefault,
    DecoderCS.pe_b, DecoderCS.pe_c, DecoderCS.pe_d, DecoderCS.relative_pos_c,
    DecoderCS.relative_pos_d, PatchEmbedS.num_patches, sigmoidS, geluS, layerNormS,
    linearS, transpose12S, reshapeS, reshapeInfer4S, permute0312S, Shp.numel,
    Nat.mul_assoc, pe_d_eval, pe_c_eval, pe_b_eval, blocks_d_eval,
    blocks_c_eval B hB, h1, h2, h3, h4, h5, h6]

/-- Witness for C1 at `B = 1`. -/
theorem C1_forward_output_shapes_witness :
    0 < 1 ∧
      decoderDefault.forwardS (.r3 1 196 384) (.r3 1 784 128) (.r3 1 3136 64) =
        some [.r4 1 1 14 14, .r4 1 1 28 28, .r4 1 1 56 56, .r4 1 1 224 224,
              .r4 1 1 14 14, .r4 1 1 28 28, .r4 1 1 56 56, .r4 1 1 224 224] :=
  ⟨by decide, C1_forward_output_shapes 1 (by decide)⟩

/-- C2: for every `PatchEmbed` instance and every rank-4 input
`(B, C, H, W)`, if `H` or `W` differs from the configured `img_size` then
`forward` errors at the size assertion, before any tensor computation
(`peForwardS` is literally the guard around `peBody`); and when both equal
`img_size` the forward proceeds past the check into the body. -/
theorem C2_patchembed_size_check (pe : PatchEmbedS) (b c h w : Nat)
    (enc : Option Shp) :
    ((h ≠ pe.ms ∨ w ≠ pe.ms) → peForwardS pe (some (.r4 b c h w)) enc = none) ∧
    (h = pe.ms ∧ w = pe.ms → peForwardS pe (some (.r4 b c h w)) enc =
      (match peBody pe b c h w enc with
       | some o => some (o, h * pe.ps, w * pe.ps)
       | none => none)) := by
  constructor
  · intro hne
    simp only [peForwardS]
    rw [if_neg]
    tauto
  · intro hhw
    simp only [peForwardS]
    rw [if_pos hhw]

/-- Witness for C2: a `3×4` input into the `img_size = 5` instance
`peSmall` errors at the size check. -/
theorem C2_patchembed_size_check_witness :
    ((3 ≠ peSmall.ms ∨ 4 ≠ peSmall.ms) ∧
      peForwardS peSmall (some (.r4 2 3 3 4)) none = none) :=
  ⟨by decide, (C2_patchembed_size_check peSmall 2 3 3 4 none).1 (by decide)⟩

/-- C3 counterexample: stage `patch_embed_d` (input spatial size `14×14 =
196`, `patch_size = 2`) produces `784` output tokens on a valid input, and
`784 ≠ 196 × 2`: the output token count is NOT input spatial size ×
patch_size. -/
theorem C3_token_count_counterexample :
    peForwardS decoderDefault.pe_d (some (.r4 1 384 14 14)) (some (.r3 1 784 128)) =
      some (.r3 1 784 128, 28, 28) ∧ ¬(784 = (14 * 14) * 2) := by
  exact ⟨pe_d_eval 1, by decide⟩

/-- C3 (amended): for each constructed `PatchEmbed` stage and every valid
input, the output token count equals input spatial size × patch_size² (the
fold grid is `img_size·stride` per side, and `patch_size = stride` in every
constructed stage), and the returned spatial dims are
`(H·patch_size, W·patch_size)`. -/
theorem C3_token_count_amended (b : Nat) :
    (peForwardS decoderDefault.pe_d (some (.r4 b 384 14 14)) (some (.r3 b 784 128)) =
      some (.r3 b ((14 * 14) * (2 * 2)) 128, 14 * 2, 14 * 2)) ∧
    (peForwardS decoderDefault.pe_c (some (.r4 b 128 28 28)) (some (.r3 b 3136 64)) =
      some (.r3 b ((28 * 28) * (2 * 2)) 64, 28 * 2, 28 * 2)) ∧
    (peForwardS decoderDefault.pe_b (some (.r4 b 64 56 56)) none =
      some (.r3 b ((56 * 56) * (4 * 4)) 16, 56 * 4, 56 * 4)) := by
  exact ⟨pe_d_eval b, pe_c_eval b, pe_b_eval b⟩

/-- C4: for every `CrossAttention` module whose head count divides its
inner width, and all batch/token counts `B, N1, N2`, the forward pass on
`fea : (B, N1, dim1)` and `depth_fea : (B, N2, dim2)` returns a tensor of
shape `(B, N1, dim1)` — the query-source token count and channel width are
preserved regardless of `N2` and `dim2`. -/
theorem C4_cross_attention_shape (m : CrossAttentionS) (B N1 N2 : Nat)
    (hd : m.heads ∣ m.dim) :
    crossAttnS m (some (.r3 B N1 m.dim1)) (some (.r3 B N2 m.dim2)) =
      some (.r3 B N1 m.dim1) := by
  have hhd : m.heads * (m.dim / m.heads) = m.dim := Nat.mul_div_cancel' hd
  simp [crossAttnS, linearS, reshapeS, permute0213S, transposeLast2S, transpose12S,
    matmul4S, softmaxS, Shp.numel, Nat.mul_assoc, hhd]

/-- Witness for C4 at the `pe_d.interact` configuration
(`dim1 = 128, dim2 = 384, dim = 128, heads = 4`) with `N1 = 10 ≠ N2 = 20`. -/
theorem C4_cross_attention_shape_witness :
    (4 ∣ 128) ∧
      crossAttnS ⟨128, 384, 128, 4⟩ (some (.r3 2 10 128)) (some (.r3 2 20 384)) =
        some (.r3 2 10 128) :=
  ⟨by decide, C4_cross_attention_shape ⟨128, 384, 128, 4⟩ 2 10 20 (by decide)⟩

/-- C5: for every value-level `PatchEmbed` constructed with `fuse = false`
and every input, the result of `forward` is identical for all values of the
skip-feature argument: the `else` branch of the source never reads
`enc_fea`. -/
theorem C5_fuse_disabled_skip_unused (pe : PatchEmbedV) (H W : Nat) (x : T4R)
    (e1 e2 : T3R) (hf : pe.fuse = false) :
    pe.forwardV H W x e1 = pe.forwardV H W x e2 := by
  simp [PatchEmbedV.forwardV, hf]

/-- Witness for C5: the concrete `fuse = false` instance `peV0` gives equal
outputs on two different skip-feature tensors. -/
theorem C5_fuse_disabled_skip_unused_witness :
    peV0.fuse = false ∧ peV0.forwardV 1 1 xV0 encV1 = peV0.forwardV 1 1 xV0 encV2 :=
  ⟨rfl, C5_fuse_disabled_skip_unused peV0 1 1 xV0 encV1 encV2 rfl⟩

/-- C6: for every constructed `DecoderC` whose `img_size` is a multiple of
16, the learned relative-position bias parameters have exactly the shapes
the `Block` stacks consume: `relative_pos_d` is
`(num_heads[3], (img/8)², (img/8)² / sr_ratios[3]²)` and `relative_pos_c`
is `(num_heads[2], (img/4)², (img/4)² / sr_ratios[2]²)`; both are fixed at
initialization (they are construction-time constants of the model). -/
theorem C6_relative_pos_shapes (cfg : DecoderCS) (hdvd : ∃ t, cfg.img = 16 * t) :
    cfg.relative_pos_d =
        .r3 cfg.nh3 ((cfg.img / 8) ^ 2) ((cfg.img / 8) ^ 2 / cfg.sr3 ^ 2) ∧
      cfg.relative_pos_c =
        .r3 cfg.nh2 ((cfg.img / 4) ^ 2) ((cfg.img / 4) ^ 2 / cfg.sr2 ^ 2) := by
  obtain ⟨t, himg⟩ := hdvd
  have h16 : cfg.img / 16 = t := by omega
  have h8 : cfg.img / 8 = 2 * t := by omega
  have h4 : cfg.img / 4 = 4 * t := by omega
  constructor
  · simp only [DecoderCS.relative_pos_d, DecoderCS.pe_d, PatchEmbedS.num_patches,
      h16, h8, Nat.div_div_eq_div_mul, pow_two, Shp.r3.injEq]
    exact ⟨trivial, by ring, by rw [show t * 2 * (t * 2) = 2 * t * (2 * t) by ring]⟩
  · simp only [DecoderCS.relative_pos_c, DecoderCS.pe_c, PatchEmbedS.num_patches,
      h8, h4, Nat.div_div_eq_div_mul, pow_two, Shp.r3.injEq]
    exact ⟨trivial, by ring, by rw [show 2 * t * 2 * (2 * t * 2) = 4 * t * (4 * t) by ring]⟩

/-- Witness for C6 at the default configuration (`img_size = 224 = 16·14`):
`relative_pos_d : (8, 784, 784)` and `relative_pos_c : (4, 3136, 784)`. -/
theorem C6_relative_pos_shapes_witness :
    (∃ t, decoderDefault.img = 16 * t) ∧
      (decoderDefault.relative_pos_d =
          .r3 decoderDefault.nh3 ((decoderDefault.img / 8) ^ 2)
            ((decoderDefault.img / 8) ^ 2 / decoderDefault.sr3 ^ 2) ∧
        decoderDefault.relative_pos_c =
          .r3 decoderDefault.nh2 ((decoderDefault.img / 4) ^ 2)
            ((decoderDefault.img / 4) ^ 2 / decoderDefault.sr2 ^ 2)) :=
  ⟨⟨14, by decide⟩, C6_relative_pos_shapes decoderDefault ⟨14, by decide⟩⟩

/-- C7: in the sigmoid stage of `DecoderC.forward`, each of the four
sigmoid-activated outputs (positions 4..7 of the returned list) equals
`1/(1 + exp(-mask))` element-wise of the corresponding raw mask logit
(positions 0..3), and every element lies strictly in `(0, 1)` (the model is
over `ℝ`, where every logit value is finite). -/
theorem C7_sigmoid_probabilities (m16 m8 m4 m1 : T4R) (i b c y z : Nat)
    (hi : i < 4) :
    (forwardSigmoidStage m16 m8 m4 m1).getD (4 + i) t4zero b c y z =
        1 / (1 + Real.exp (-([m16, m8, m4, m1].getD i t4zero b c y z))) ∧
      0 < (forwardSigmoidStage m16 m8 m4 m1).getD (4 + i) t4zero b c y z ∧
      (forwardSigmoidStage m16 m8 m4 m1).getD (4 + i) t4zero b c y z < 1 := by
  interval_cases i <;>
    exact ⟨rfl, sigmoidR_pos _, sigmoidR_lt_one _⟩

/-- Witness for C7 at `i = 0` on the zero mask tensors. -/
theorem C7_sigmoid_probabilities_witness :
    0 < 4 ∧
      ((forwardSigmoidStage xV0 xV0 xV0 xV0).getD (4 + 0) t4zero 0 0 0 0 =
          1 / (1 + Real.exp (-([xV0, xV0, xV0, xV0].getD 0 t4zero 0 0 0 0))) ∧
        0 < (forwardSigmoidStage xV0 xV0 xV0 xV0).getD (4 + 0) t4zero 0 0 0 0 ∧
        (forwardSigmoidStage xV0 xV0 xV0 xV0).getD (4 + 0) t4zero 0 0 0 0 < 1) :=
  ⟨by decide, C7_sigmoid_probabilities xV0 xV0 xV0 xV0 0 0 0 0 0 (by decide)⟩

/-- C8: `forward_features` hard-codes the `14×14` grid (line 347): with the
default configuration at any `img_size`, a successful `DecoderC.forward`
forces the coarse input to have exactly `196` tokens (the reshape to
`(B, C, 14, 14)` needs `B·N·C = B·C·196`, independently of `img_size`) and
forces `img_size = 224` (via the `PatchEmbed` size assertions, which pin
`img/16 = 14`, `img/8 = 28`, `img/4 = 56`, and the final mask reshape,
which pins `img² = 224²`). -/
theorem C8_forward_only_224_196 {img b n c : Nat} {x18 x14 : Shp}
    {outs : List Shp}
    (hs : (decoderWithImg img).forwardS (.r3 b n c) x18 x14 = some outs) :
    n = 196 ∧ img = 224 := by
  rw [DecoderCS.forwardS] at hs
  split at hs
  case _ m16 m8 m4 m1 heq => exact forwardFeatures_img_inv heq
  case _ => exact absurd hs (by simp)

/-- Witness for C8: the pipeline does succeed at `img_size = 224` with 196
input tokens, and the theorem then reports exactly those values. -/
theorem C8_forward_only_224_196_witness :
    (decoderWithImg 224).forwardS (.r3 1 196 384) (.r3 1 784 128) (.r3 1 3136 64) =
        some [.r4 1 1 14 14, .r4 1 1 28 28, .r4 1 1 56 56, .r4 1 1 224 224,
              .r4 1 1 14 14, .r4 1 1 28 28, .r4 1 1 56 56, .r4 1 1 224 224] ∧
      (196 = 196 ∧ 224 = 224) :=
  ⟨C1_forward_output_shapes 1 (by decide),
   C8_forward_only_224_196 (C1_forward_output_shapes 1 (by decide))⟩

/-- C9: for the two `fuse = true` stages of the default decoder
(`patch_embed_d` on a valid `(b, 384, 14, 14)` input and `patch_embed_c` on
a valid `(b, 128, 28, 28)` input), the forward pass succeeds if and only if
the skip-feature has exactly `(img_size·stride)²` tokens and exactly
`embed_dim` channels: `(b, 784, 128)` for `pe_d` and `(b, 3136, 64)` for
`pe_c`; any other token count, width, batch, or rank is an error. -/
theorem C9_fuse_requires_exact_skip_shape (b : Nat) (enc : Shp) :
    ((∃ r, peForwardS decoderDefault.pe_d (some (.r4 b 384 14 14)) (some enc) = some r)
        ↔ enc = .r3 b 784 128) ∧
    ((∃ r, peForwardS decoderDefault.pe_c (some (.r4 b 128 28 28)) (some enc) = some r)
        ↔ enc = .r3 b 3136 64) := by
  constructor
  · constructor
    · rintro ⟨⟨o, H2, W2⟩, hr⟩
      obtain ⟨b2, c2, hx, -, -, -, hfuse⟩ := peForwardS_inv hr
      simp only [decoderDefault, DecoderCS.pe_d] at hx hfuse
      simp only [Option.some_inj, Shp.r4.injEq] at hx
      obtain ⟨rfl, -, -, -⟩ := hx
      simpa using hfuse
    · rintro rfl
      exact ⟨_, pe_d_eval b⟩
  · constructor
    · rintro ⟨⟨o, H2, W2⟩, hr⟩
      obtain ⟨b2, c2, hx, -, -, -, hfuse⟩ := peForwardS_inv hr
      simp only [decoderDefault, DecoderCS.pe_c] at hx hfuse
      simp only [Option.some_inj, Shp.r4.injEq] at hx
      obtain ⟨rfl, -, -, -⟩ := hx
      simpa using hfuse
    · rintro rfl
      exact ⟨_, pe_c_eval b⟩

/-- C10: in `load_list`, every file listed in the `SRD_DC/train_A`
directory contributes an image path ending in `.png` but a label path
ending in `.jpg` (mismatched extensions), while in the other SRD branches
(`SRD_BM`, `SRD_DSC`, `SRD_TG`) image and label paths both end in `.jpg`
(matching extensions).  `l1..l9` are the nine `os.listdir` results in
source order; the indices are the positions the loop appends to. -/
theorem C10_srd_dc_extension_mismatch (root : String)
    (l1 l2 l3 l4 l5 l6 l7 l8 l9 : List String) (i : Nat) (hi : i < l7.length) :
    (∃ stem, (load_list root l1 l2 l3 l4 l5 l6 l7 l8 l9).1.getD
        (l1.length + (l2.length + (l3.length + (l4.length +
          (l5.length + (l6.length + i)))))) "" = stem ++ ".png") ∧
    (∃ stem, (load_list root l1 l2 l3 l4 l5 l6 l7 l8 l9).2.getD
        (l1.length + (l2.length + (l3.length + (l4.length +
          (l5.length + (l6.length + i)))))) "" = stem ++ ".jpg") ∧
    (∀ j, j < l6.length →
      (∃ s, (load_list root l1 l2 l3 l4 l5 l6 l7 l8 l9).1.getD
          (l1.length + (l2.length + (l3.length + (l4.length +
            (l5.length + j))))) "" = s ++ ".jpg") ∧
      (∃ s, (load_list root l1 l2 l3 l4 l5 l6 l7 l8 l9).2.getD
          (l1.length + (l2.length + (l3.length + (l4.length +
            (l5.length + j))))) "" = s ++ ".jpg")) ∧
    (∀ j, j < l8.length →
      (∃ s, (load_list root l1 l2 l3 l4 l5 l6 l7 l8 l9).1.getD
          (l1.length + (l2.length + (l3.length + (l4.length +
            (l5.length + (l6.length + (l7.length + j))))))) "" = s ++ ".jpg") ∧
      (∃ s, (load_list root l1 l2 l3 l4 l5 l6 l7 l8 l9).2.getD
          (l1.length + (l2.length + (l3.length + (l4.length +
            (l5.length + (l6.length + (l7.length + j))))))) "" = s ++ ".jpg")) ∧
    (∀ j, j < l9.length →
      (∃ s, (load_list root l1 l2 l3 l4 l5 l6 l7 l8 l9).1.getD
          (l1.length + (l2.length + (l3.length + (l4.length + (l5.length +
            (l6.length + (l7.length + (l8.length + j)))))))) "" = s ++ ".jpg") ∧
      (∃ s, (load_list root l1 l2 l3 l4 l5 l6 l7 l8 l9).2.getD
          (l1.length + (l2.length + (l3.length + (l4.length + (l5.length +
            (l6.length + (l7.length + (l8.length + j)))))))) "" = s ++ ".jpg")) := by
  simp only [load_list, List.append_assoc]
  refine ⟨?_, ?_, fun j hj => ⟨?_, ?_⟩, fun j hj => ⟨?_, ?_⟩, fun j hj => ⟨?_, ?_⟩⟩
  · rw [getD_map_append, getD_map_append, getD_map_append, getD_map_append,
      getD_map_append, getD_map_append, getD_map_here _ _ _ _ _ hi]
    exact ⟨_, rfl⟩
  · rw [getD_map_append, getD_map_append, getD_map_append, getD_map_append,
      getD_map_append, getD_map_append, getD_map_here _ _ _ _ _ hi]
    exact ⟨_, rfl⟩
  · rw [getD_map_append, getD_map_append, getD_map_append, getD_map_append,
      getD_map_append, getD_map_here _ _ _ _ _ hj]
    exact ⟨_, rfl⟩
  · rw [getD_map_append, getD_map_append, getD_map_append, getD_map_append,
      getD_map_append, getD_map_here _ _ _ _ _ hj]
    exact ⟨_, rfl⟩
  · rw [getD_map_append, getD_map_append, getD_map_append, getD_map_append,
      getD_map_append, getD_map_append, getD_map_append, getD_map_here _ _ _ _ _ hj]
    exact ⟨_, rfl⟩
  · rw [getD_map_append, getD_map_append, getD_map_append, getD_map_append,
      getD_map_append, getD_map_append, getD_map_append, getD_map_here _ _ _ _ _ hj]
    exact ⟨_, rfl⟩
  · rw [getD_map_append, getD_map_append, getD_map_append, getD_map_append,
      getD_map_append, getD_map_append, getD_map_append, getD_map_append,
      getD_map_only _ _ _ _ hj]
    exact ⟨_, rfl⟩
  · rw [getD_map_append, getD_map_append, getD_map_append, getD_map_append,
      getD_map_append, getD_map_append, getD_map_append, getD_map_append,
      getD_map_only _ _ _ _ hj]
    exact ⟨_, rfl⟩

/-- Witness for C10 with singleton directory listings. -/
theorem C10_srd_dc_extension_mismatch_witness :
    0 < (["a.png"] : List String).length ∧
      (∃ stem, (load_list "d/" ["a.png"] ["a.png"] ["a.png"] ["a.png"] ["a.png"]
          ["a.png"] ["a.png"] ["a.png"] ["a.png"]).1.getD 6 "" = stem ++ ".png") :=
  ⟨by decide,
    ((C10_srd_dc_extension_mismatch "d/" ["a.png"] ["a.png"] ["a.png"] ["a.png"]
      ["a.png"] ["a.png"] ["a.png"] ["a.png"] ["a.png"] 0 (by decide)).1)⟩

end MFF
